import Mathlib

/-!
# Verification of the PubMed scraper pipeline

Shallow embedding of `src/pubmed_scraper.py`.

The script walks records parsed by `xml.etree.ElementTree`.  In that library
`element.find(path)` returns the element or `None`, and a found element's
`.text` is itself a string or `None` (an empty element such as
`<Affiliation></Affiliation>` has `text = None`).  We therefore model every
element access point as `Option (Option String)`: the outer layer is element
presence, the inner layer is the element's text.  Attribute access on `None`
(`AttributeError`) and calling `re.search` on `None` (`TypeError`) are modelled
as values of `PyError`; a Python exception aborts the whole batch, which the
`Except` monad captures.
-/

namespace PubmedScraper

/-- Python exceptions that the scraper's extraction code can raise. -/
inductive PyError where
  | attributeError
  | typeError
deriving DecidableEq

/-- One `<Author>` element: `LastName`, `ForeName` and (first descendant)
`<Affiliation>`.  Each field is element presence (`find` result) paired with
the element's optional text. -/
structure Author where
  lastName : Option (Option String)
  foreName : Option (Option String)
  affiliation : Option (Option String)
deriving DecidableEq

/-- One `<PubmedArticle>` element with its `PMID`, `ArticleTitle`,
`PubDate/Year` and ordered `Author` list. -/
structure Article where
  pmid : Option (Option String)
  articleTitle : Option (Option String)
  pubDateYear : Option (Option String)
  authors : List Author
deriving DecidableEq

/-- `element.text` after an unconditional `find(...)`: raises
`AttributeError` when the element is missing (source lines 43-44). -/
def elemText : Option (Option String) → Except PyError (Option String)
  | none => .error .attributeError
  | some t => .ok t

/-- `COMPANY_KEYWORDS` from line 13 of the source. -/
def COMPANY_KEYWORDS : List String :=
  ["pharma", "biotech", "laboratories", "inc", "ltd", "corp", "gmbh", "s.a.", "co.", "llc"]

/-- Python `str.lower()`.  `Char.toLower` lowers the ASCII range, which
covers every character the ASCII-only keywords and email pattern can match. -/
def pyLower (s : String) : String := String.mk (s.data.map Char.toLower)

/-- Does `h` start with `n`? -/
def startsWithB : List Char → List Char → Bool
  | [], _ => true
  | _ :: _, [] => false
  | c :: cs, d :: ds => c = d && startsWithB cs ds

/-- Does `n` occur contiguously inside `h`? -/
def containsSubB (n : List Char) : List Char → Bool
  | [] => startsWithB n []
  | d :: ds => startsWithB n (d :: ds) || containsSubB n ds

/-- Python's substring test `needle in hay`. -/
def strContainsB (hay needle : String) : Bool :=
  containsSubB needle.toList hay.toList

/-- `any(keyword in affiliation_text for keyword in COMPANY_KEYWORDS)`
(line 61); the argument is the already lower-cased affiliation text. -/
def anyKeyword (affiliation_text : String) : Bool :=
  COMPANY_KEYWORDS.any (fun keyword => strContainsB affiliation_text keyword)

/-- Python `str(x)` as used by an f-string on an element text: `None` prints
as `"None"`. -/
def pyStr : Option String → String
  | none => "None"
  | some s => s

/-- Line 56: `f"{firstname.text} {lastname.text}"` when both name elements
were found, else the literal `"Unknown"`. -/
def displayName (a : Author) : String :=
  match a.foreName, a.lastName with
  | some f, some l => pyStr f ++ " " ++ pyStr l
  | _, _ => "Unknown"

/-! ## The email pattern

Line 66 runs `re.search(r"[a-zA-Z0-9._%+-]+@[a-zA-Z0-9.-]+\.[a-zA-Z]{2,}", s)`.
We embed Python's backtracking search for this fixed pattern: try every start
position left to right; at a start, the greedy local-part run must be
followed by `@`; after `@` the greedy domain run is split at the right-most
dot that is followed by at least two ASCII letters. -/

/-- Character class `[a-zA-Z0-9._%+-]` (ASCII, as in the pattern). -/
def isLocalChar (c : Char) : Bool :=
  c.isAlpha || c.isDigit || c = '.' || c = '_' || c = '%' || c = '+' || c = '-'

/-- Character class `[a-zA-Z0-9.-]`. -/
def isDomChar (c : Char) : Bool :=
  c.isAlpha || c.isDigit || c = '.' || c = '-'

/-- Is `k` a valid split point of the greedy domain run: a dot with at least
two ASCII letters right after it? -/
def okSplit (dom : List Char) (k : Nat) : Bool :=
  decide (dom[k]? = some '.') &&
    decide (2 ≤ ((dom.drop (k + 1)).takeWhile Char.isAlpha).length)

/-- Largest valid split point `k` with `1 ≤ k ≤ bound` (the backtracking of
`[a-zA-Z0-9.-]+` prefers the longest run before the literal dot). -/
def findSplit (dom : List Char) : Nat → Option Nat
  | 0 => none
  | k + 1 => if okSplit dom (k + 1) then some (k + 1) else findSplit dom k

/-- Attempt to match the email pattern anchored at the head of `l`; returns
group 0 on success. -/
def matchEmailHere (l : List Char) : Option (List Char) :=
  let loc := l.takeWhile isLocalChar
  if loc = [] then none
  else
    match l.drop loc.length with
    | '@' :: afterAt =>
        let dom := afterAt.takeWhile isDomChar
        match findSplit dom (dom.length - 1) with
        | some k =>
            some (loc ++ '@' :: (dom.take k ++ '.' :: (dom.drop (k + 1)).takeWhile Char.isAlpha))
        | none => none
    | _ => none

/-- `re.search`: try each start position from the left. -/
def searchEmail : List Char → Option (List Char)
  | [] => none
  | c :: rest =>
      match matchEmailHere (c :: rest) with
      | some m => some m
      | none => searchEmail rest

/-- `re.search(pattern, s)` returning `group(0)` when a match exists. -/
def findEmail (s : String) : Option String :=
  (searchEmail s.toList).map fun l => String.mk l

/-! ## Per-record extraction (lines 42-78) -/

/-- The three per-record accumulators of the author loop:
`non_academic_authors`, `company_affiliations`, `corresponding_email`. -/
structure ExtractState where
  nonAcademicAuthors : List String
  companyAffiliations : List String
  correspondingEmail : Option String
deriving DecidableEq

/-- One iteration of the author loop (lines 53-68).

* affiliation element present with `text = None`: line 60
  (`affiliation.text.lower()`) raises `AttributeError`;
* affiliation element absent: classification is skipped and the email search
  runs on `""` (line 66);
* affiliation text present: classify by keyword substring on the lower-cased
  text, appending the display name and the original-case text on a hit, then
  search the original-case text for an email, keeping only the first email
  found for the record (`if email_match and corresponding_email is None`). -/
def authorStep (a : Author) (st : ExtractState) : Except PyError ExtractState :=
  match a.affiliation with
  | some none => .error .attributeError
  | none =>
      .ok ⟨st.nonAcademicAuthors, st.companyAffiliations,
        match st.correspondingEmail with
        | some e => some e
        | none => findEmail ""⟩
  | some (some s) =>
      let name := displayName a
      let st1 : ExtractState :=
        if anyKeyword (pyLower s) then
          ⟨st.nonAcademicAuthors ++ [name], st.companyAffiliations ++ [s],
            st.correspondingEmail⟩
        else st
      .ok ⟨st1.nonAcademicAuthors, st1.companyAffiliations,
        match st1.correspondingEmail with
        | some e => some e
        | none => findEmail s⟩

/-- The author loop. -/
def processAuthors : List Author → ExtractState → Except PyError ExtractState
  | [], st => .ok st
  | a :: rest, st =>
      match authorStep a st with
      | .error e => .error e
      | .ok st' => processAuthors rest st'

/-- One output row (the dict built on lines 71-78). The first three values
come from element texts and can be Python `None`. -/
structure Row where
  pubmedID : Option String
  title : Option String
  pubDate : Option String
  nonAcademicAuthors : String
  companyAffiliations : String
  correspondingEmail : String
deriving DecidableEq

/-- Python `v or dflt` for an optional string `v` (falsy on `None` and `""`). -/
def pyOr (v : Option String) (dflt : String) : String :=
  match v with
  | some s => if s = "" then dflt else s
  | none => dflt

/-- Extraction of one `PubmedArticle` (lines 42-78).  `Python set(...)` has no
guaranteed iteration order; the model fixes one deduplicated order
(`List.dedup`), and every theorem about the company-affiliation field uses
only order-independent consequences. -/
def extractArticle (article : Article) : Except PyError (Option Row) :=
  match elemText article.pmid with
  | .error e => .error e
  | .ok pubmed_id =>
    match elemText article.articleTitle with
    | .error e => .error e
    | .ok title =>
      let pub_date : Option String :=
        match article.pubDateYear with
        | some t => t
        | none => some "Unknown"
      match processAuthors article.authors ⟨[], [], none⟩ with
      | .error e => .error e
      | .ok st =>
          if st.nonAcademicAuthors = [] then .ok none
          else
            .ok (some
              { pubmedID := pubmed_id
                title := title
                pubDate := pub_date
                nonAcademicAuthors := String.intercalate "; " st.nonAcademicAuthors
                companyAffiliations :=
                  String.intercalate "; " st.companyAffiliations.dedup
                correspondingEmail := pyOr st.correspondingEmail "N/A" })

/-- `fetch_pubmed_details` restricted to its pure part: the batch of parsed
`PubmedArticle` elements in, the list of qualifying rows out; the first
exception aborts the whole batch. -/
def fetch_pubmed_details : List Article → Except PyError (List Row)
  | [] => .ok []
  | art :: rest =>
      match extractArticle art with
      | .error e => .error e
      | .ok r =>
          match fetch_pubmed_details rest with
          | .error e => .error e
          | .ok rows => .ok (match r with | some row => row :: rows | none => rows)

/-! ## Identifier search (lines 15-27)

`fetch_pubmed_ids` parses the JSON response and evaluates
`data.get("esearchresult", {}).get("idlist", [])`.  We model the parsed JSON
value; `dict.get(key, default)` works on a JSON object (Python keeps the last
binding of a duplicated key and our association lists carry each key at most
once in every claim we state) and raises `AttributeError` on a non-object. -/

/-- A parsed JSON value. -/
inductive Json where
  | jnull
  | jbool (b : Bool)
  | jnum (n : Int)
  | jstr (s : String)
  | jarr (elems : List Json)
  | jobj (fields : List (String × Json))

/-- Python `value.get(key, default)`: value must be a dict. -/
def pyDictGet (j : Json) (key : String) (dflt : Json) : Except PyError Json :=
  match j with
  | .jobj fields => .ok ((fields.lookup key).getD dflt)
  | _ => .error .attributeError

/-- `fetch_pubmed_ids` restricted to its pure part (line 27): extract
`esearchresult.idlist` with empty-container defaults. -/
def fetch_pubmed_ids (data : Json) : Except PyError Json :=
  match pyDictGet data "esearchresult" (.jobj []) with
  | .error e => .error e
  | .ok es => pyDictGet es "idlist" (.jarr [])

/-! ## The `main` pipeline (lines 92-115)

The observable effects of one run, given the upstream responses: the search
always happens; the detail fetch happens only when the search returned a
non-empty identifier list; the CSV write happens only when some record
qualified. -/

/-- The externally visible actions `main` can perform, in order. -/
inductive Action where
  | searchIds (query : String)
  | fetchDetailsFor (ids : List String)
  | writeCsv (filename : String)
deriving DecidableEq

/-- `main`: `searchResult` is the identifier list the search call returned and
`articles` the parsed body of the detail fetch (consulted only if that fetch
is issued).  Returns the list of performed actions, or the uncaught exception
that aborted the run. -/
def mainModel (query outFile : String) (searchResult : List String)
    (articles : List Article) : Except PyError (List Action) :=
  if searchResult = [] then .ok [Action.searchIds query]
  else
    match fetch_pubmed_details articles with
    | .error e => .error e
    | .ok papers =>
        if papers = [] then .ok [Action.searchIds query, Action.fetchDetailsFor searchResult]
        else .ok [Action.searchIds query, Action.fetchDetailsFor searchResult,
                  Action.writeCsv outFile]

/-! ## CSV writer and reader (lines 82-90)

`csv.DictWriter` with the default `excel` dialect: fields joined by `,`, rows
terminated by `\r\n`, a field quoted with `"` exactly when it contains a
comma, a quote, or a line-terminator character (QUOTE_MINIMAL), inner quotes
doubled; a Python `None` cell is written as the empty string.  The reader
below is the matching `csv.reader` semantics for well-formed input, needed to
state the round-trip property.  Both sides work on `List Char`. -/

/-- Does this character force quoting under QUOTE_MINIMAL? -/
def csvSpecial (c : Char) : Bool :=
  c = ',' || c = '"' || c = '\r' || c = '\n'

/-- Double every quote of the field body. -/
def escBody : List Char → List Char
  | [] => []
  | c :: f => (if c = '"' then ['"', '"'] else [c]) ++ escBody f

/-- Write one field, quoting it exactly when it contains a special char. -/
def escField (f : List Char) : List Char :=
  if f.any csvSpecial then '"' :: (escBody f ++ ['"']) else f

/-- Join written fields with commas. -/
def joinComma : List (List Char) → List Char
  | [] => []
  | [f] => f
  | f :: fs => f ++ ',' :: joinComma fs

/-- Write one record: escaped fields, comma-joined, `\r\n`-terminated. -/
def writeRec (fields : List (List Char)) : List Char :=
  joinComma (fields.map escField) ++ ['\r', '\n']

/-- The whole file: one written record per row. -/
def csvFile : List (List (List Char)) → List Char
  | [] => []
  | r :: rs => writeRec r ++ csvFile rs

/-- The `fieldnames` list of line 85. -/
def fieldnames : List String :=
  ["PubmedID", "Title", "Publication Date", "Non-academic Author(s)",
   "Company Affiliation(s)", "Corresponding Author Email"]

/-- The csv cell for a Python value that is a string or `None`. -/
def cellStr : Option String → String
  | none => ""
  | some s => s

/-- The six cells `DictWriter.writerow` emits for one paper, in
`fieldnames` order. -/
def rowValues (p : Row) : List String :=
  [cellStr p.pubmedID, cellStr p.title, cellStr p.pubDate,
   p.nonAcademicAuthors, p.companyAffiliations, p.correspondingEmail]

/-- `save_to_csv`: the full byte content (as characters) of the written file:
header row then one row per paper in input order. -/
def save_to_csv (papers : List Row) : List Char :=
  csvFile ((fieldnames.map String.toList) ::
    papers.map fun p => (rowValues p).map String.toList)

/-- Reader: consume a quoted field body after the opening quote; a doubled
quote is a literal quote, a lone quote closes the field. -/
def parseQuoted (acc : List Char) : List Char → List Char × List Char
  | [] => (acc.reverse, [])
  | c :: rest =>
      if c = '"' then
        match rest with
        | c2 :: rest2 =>
            if c2 = '"' then parseQuoted ('"' :: acc) rest2
            else (acc.reverse, c2 :: rest2)
        | [] => (acc.reverse, [])
      else parseQuoted (c :: acc) rest

/-- Does this character end a bare (unquoted) field? -/
def stopChar (c : Char) : Bool :=
  c = ',' || c = '\r' || c = '\n'

/-- Reader: consume a bare field up to a comma or line end. -/
def parseBare (acc : List Char) : List Char → List Char × List Char
  | [] => (acc.reverse, [])
  | c :: rest =>
      if stopChar c then (acc.reverse, c :: rest)
      else parseBare (c :: acc) rest

/-- Reader: one field, quoted or bare. -/
def parseField : List Char → List Char × List Char
  | [] => ([], [])
  | c :: rest =>
      if c = '"' then parseQuoted [] rest
      else parseBare [] (c :: rest)

/-- Reader: the fields of one record, stopping after its `\r\n`.  The fuel
only serves termination; `input.length + 1` is always enough. -/
def parseRecAux : Nat → List (List Char) → List Char → List (List Char) × List Char
  | 0, acc, input => (acc.reverse, input)
  | fuel + 1, acc, input =>
      match parseField input with
      | (f, rest) =>
          match rest with
          | ',' :: rest2 => parseRecAux fuel (f :: acc) rest2
          | '\r' :: '\n' :: rest2 => ((f :: acc).reverse, rest2)
          | _ => ((f :: acc).reverse, rest)

/-- Reader: one record. -/
def parseRecord (input : List Char) : List (List Char) × List Char :=
  parseRecAux (input.length + 1) [] input

/-- Reader: all records.  The fuel only serves termination; the input length
is always enough. -/
def parseRows : Nat → List Char → List (List (List Char))
  | 0, _ => []
  | fuel + 1, input =>
      if input = [] then []
      else
        match parseRecord input with
        | (r, rest) => r :: parseRows fuel rest

/-- Parse a whole CSV file into its records. -/
def csvParse (input : List Char) : List (List (List Char)) :=
  parseRows input.length input

/-! ## Specification-side helpers

Derived predicates used to state the claims; each is characterized against
the extraction code by the lemmas below. -/

/-- The affiliation string the author loop effectively scans for an email:
the element's text if present, else `""` (line 66). -/
def affOrEmpty (a : Author) : String :=
  match a.affiliation with
  | some (some s) => s
  | _ => ""

/-- Is this author classified non-academic by the loop body? -/
def authorNonAcadB (a : Author) : Bool :=
  match a.affiliation with
  | some (some s) => anyKeyword (pyLower s)
  | _ => false

/-- The claim's wording of non-academic classification: the lower-cased
affiliation text contains some keyword of the fixed set as a substring. -/
def NonAcadP (a : Author) : Prop :=
  ∃ s, a.affiliation = some (some s) ∧
    ∃ k ∈ COMPANY_KEYWORDS, k.toList <:+: (pyLower s).toList

/-- The claim's wording of the display name: `"{first} {last}"` when both
name parts are present, the sentinel `"Unknown"` otherwise. -/
def specDisplay (a : Author) : String :=
  match a.foreName, a.lastName with
  | some (some f), some (some l) => f ++ " " ++ l
  | _, _ => "Unknown"

/-- First-match-wins email accumulation over the author list, in document
order. -/
def emailScan : Option String → List Author → Option String
  | em, [] => em
  | em, a :: rest =>
      emailScan
        (match em with
         | some e => some e
         | none => findEmail (affOrEmpty a)) rest

/-! ## Characterization lemmas -/

lemma startsWithB_eq : ∀ n h : List Char, startsWithB n h = true ↔ ∃ t, n ++ t = h
  | [], h => by simp [startsWithB]
  | c :: cs, [] => by simp [startsWithB]
  | c :: cs, d :: ds => by
      simp only [startsWithB, Bool.and_eq_true, decide_eq_true_eq, startsWithB_eq cs ds,
        List.cons_append, List.cons.injEq]
      constructor
      · rintro ⟨rfl, t, rfl⟩
        exact ⟨t, rfl, rfl⟩
      · rintro ⟨t, rfl, rfl⟩
        exact ⟨rfl, t, rfl⟩

lemma containsSubB_eq : ∀ n h : List Char, containsSubB n h = true ↔ ∃ s t, s ++ n ++ t = h
  | n, [] => by
      simp only [containsSubB, startsWithB_eq]
      constructor
      · rintro ⟨t, ht⟩
        exact ⟨[], t, by simpa using ht⟩
      · rintro ⟨s, t, ht⟩
        simp only [List.append_eq_nil] at ht
        exact ⟨t, by simp [ht.1.1, ht.1.2, ht.2]⟩
  | n, d :: ds => by
      simp only [containsSubB, Bool.or_eq_true, startsWithB_eq, containsSubB_eq n ds]
      constructor
      · rintro (⟨t, ht⟩ | ⟨s, t, ht⟩)
        · exact ⟨[], t, by simpa using ht⟩
        · exact ⟨d :: s, t, by simp [ht]⟩
      · rintro ⟨s, t, ht⟩
        cases s with
        | nil => exact Or.inl ⟨t, by simpa using ht⟩
        | cons e s' =>
            simp only [List.cons_append, List.cons.injEq] at ht
            exact Or.inr ⟨s', t, ht.2⟩

lemma strContainsB_iff (hay needle : String) :
    strContainsB hay needle = true ↔ needle.toList <:+: hay.toList := by
  rw [strContainsB, containsSubB_eq]
  exact Iff.rfl

lemma authorNonAcadB_iff (a : Author) : authorNonAcadB a = true ↔ NonAcadP a := by
  unfold authorNonAcadB NonAcadP
  match h : a.affiliation with
  | none => simp [h]
  | some none => simp [h]
  | some (some s) =>
      simp only [h, anyKeyword, List.any_eq_true, strContainsB_iff,
        Option.some.injEq]
      constructor
      · rintro ⟨k, hk, hkin⟩
        exact ⟨s, rfl, k, hk, hkin⟩
      · rintro ⟨s', hs', k, hk, hkin⟩
        cases hs'
        exact ⟨k, hk, hkin⟩

lemma emailScan_some (e : String) (l : List Author) :
    emailScan (some e) l = some e := by
  induction l with
  | nil => rfl
  | cons a rest ih => simpa [emailScan] using ih

lemma emailScan_none_eq (authors : List Author) :
    emailScan none authors = ((authors.map affOrEmpty).filterMap findEmail).head? := by
  induction authors with
  | nil => rfl
  | cons a rest ih =>
      simp only [emailScan, List.map_cons, List.filterMap_cons]
      cases hf : findEmail (affOrEmpty a) with
      | none => simpa [hf] using ih
      | some e => simp [hf, emailScan_some]

lemma findEmail_empty : findEmail "" = none := rfl

lemma matchEmailHere_ne_nil {l m : List Char} (h : matchEmailHere l = some m) :
    m ≠ [] := by
  simp only [matchEmailHere] at h
  split at h
  · exact absurd h (by simp)
  · split at h
    · split at h
      · simp only [Option.some.injEq] at h
        subst h
        simp
      · exact absurd h (by simp)
    · exact absurd h (by simp)

lemma searchEmail_ne_nil : ∀ {l m : List Char}, searchEmail l = some m → m ≠ []
  | c :: rest, m, h => by
      simp only [searchEmail] at h
      split at h
      · next hm => cases h; exact matchEmailHere_ne_nil hm
      · exact searchEmail_ne_nil h

lemma findEmail_ne_empty {s e : String} (h : findEmail s = some e) : e ≠ "" := by
  unfold findEmail at h
  cases hm : searchEmail s.toList with
  | none => rw [hm] at h; exact absurd h (by simp)
  | some m =>
      rw [hm] at h
      simp only [Option.map_some', Option.some.injEq] at h
      subst h
      intro he
      exact searchEmail_ne_nil hm (congrArg String.data he)

/-- The author loop, characterized on a batch whose affiliation elements all
carry text when present (no `AttributeError`): it appends the display names
and original-case affiliations of exactly the keyword-matching authors in
order, and keeps the first email found. -/
lemma processAuthors_wf (authors : List Author) (st : ExtractState)
    (h : ∀ a ∈ authors, a.affiliation ≠ some none) :
    processAuthors authors st = .ok
      ⟨st.nonAcademicAuthors ++ (authors.filter authorNonAcadB).map displayName,
       st.companyAffiliations ++ (authors.filter authorNonAcadB).map affOrEmpty,
       emailScan st.correspondingEmail authors⟩ := by
  induction authors generalizing st with
  | nil => simp [processAuthors, emailScan]
  | cons a rest ih =>
      obtain ⟨n, c, em⟩ := st
      have ha : a.affiliation ≠ some none := h a (List.mem_cons_self a rest)
      have hrest : ∀ x ∈ rest, x.affiliation ≠ some none :=
        fun x hx => h x (List.mem_cons_of_mem _ hx)
      match haff : a.affiliation with
      | some none => exact absurd haff ha
      | none =>
          simp only [processAuthors, authorStep, haff]
          rw [ih _ hrest]
          simp [List.filter_cons, authorNonAcadB, haff, emailScan, affOrEmpty]
      | some (some s) =>
          simp only [processAuthors, authorStep, haff]
          by_cases hcl : anyKeyword (pyLower s) = true
          · simp only [hcl, if_true]
            rw [ih _ hrest]
            simp [List.filter_cons, authorNonAcadB, haff, hcl, emailScan, affOrEmpty,
              List.append_assoc]
          · simp only [hcl, if_false, Bool.false_eq_true]
            rw [ih _ hrest]
            simp [List.filter_cons, authorNonAcadB, haff, hcl, emailScan, affOrEmpty]

/-- Extraction of one well-formed article, in closed form. -/
lemma extractArticle_wf (art : Article) (t u : Option String)
    (h1 : art.pmid = some t) (h2 : art.articleTitle = some u)
    (h3 : ∀ a ∈ art.authors, a.affiliation ≠ some none) :
    extractArticle art = .ok
      (if art.authors.filter authorNonAcadB = [] then none
       else some
        { pubmedID := t
          title := u
          pubDate :=
            match art.pubDateYear with
            | some y => y
            | none => some "Unknown"
          nonAcademicAuthors :=
            String.intercalate "; " ((art.authors.filter authorNonAcadB).map displayName)
          companyAffiliations :=
            String.intercalate "; "
              (((art.authors.filter authorNonAcadB).map affOrEmpty).dedup)
          correspondingEmail := pyOr (emailScan none art.authors) "N/A" }) := by
  unfold extractArticle
  rw [h1, h2]
  simp only [elemText]
  rw [processAuthors_wf art.authors ⟨[], [], none⟩ h3]
  simp only [List.nil_append]
  by_cases hf : art.authors.filter authorNonAcadB = []
  · simp [hf]
  · simp [hf, List.map_eq_nil_iff]

/-! ## Claim theorems -/

/-- **C1.** For an author whose affiliation element carries text `s`, one
iteration of the author loop appends the author's display name (and the
original-case affiliation) exactly when the lower-cased affiliation text
contains, as a substring, at least one keyword of the fixed set
`COMPANY_KEYWORDS`; when no keyword occurs the accumulators are unchanged, so
such an author is never classified non-academic. -/
theorem c1_classification (a : Author) (s : String)
    (h : a.affiliation = some (some s)) (st : ExtractState) :
    authorStep a st = .ok
      ⟨(if ∃ k ∈ COMPANY_KEYWORDS, k.toList <:+: (pyLower s).toList
          then st.nonAcademicAuthors ++ [displayName a] else st.nonAcademicAuthors),
       (if ∃ k ∈ COMPANY_KEYWORDS, k.toList <:+: (pyLower s).toList
          then st.companyAffiliations ++ [s] else st.companyAffiliations),
       (match st.correspondingEmail with
        | some e => some e
        | none => findEmail s)⟩ := by
  have hcond : (anyKeyword (pyLower s) = true) ↔
      ∃ k ∈ COMPANY_KEYWORDS, k.toList <:+: (pyLower s).toList := by
    simp [anyKeyword, strContainsB_iff, List.any_eq_true]
  by_cases hk : ∃ k ∈ COMPANY_KEYWORDS, k.toList <:+: (pyLower s).toList
  · have hk' : ∃ k ∈ COMPANY_KEYWORDS, k.data <:+: (pyLower s).data := by simpa using hk
    simp [authorStep, h, hcond, hk, hk']
  · have hk' : ¬ ∃ k ∈ COMPANY_KEYWORDS, k.data <:+: (pyLower s).data := by simpa using hk
    simp [authorStep, h, hcond, hk, hk']

/-- Witness for C1: a pharma affiliation is classified non-academic. -/
theorem c1_classification_witness :
    authorStep ⟨some (some "Doe"), some (some "Jane"), some (some "Acme Pharma")⟩
        ⟨[], [], none⟩ = .ok
      ⟨(if ∃ k ∈ COMPANY_KEYWORDS, k.toList <:+: (pyLower "Acme Pharma").toList
          then [] ++ [displayName ⟨some (some "Doe"), some (some "Jane"),
                      some (some "Acme Pharma")⟩] else []),
       (if ∃ k ∈ COMPANY_KEYWORDS, k.toList <:+: (pyLower "Acme Pharma").toList
          then [] ++ ["Acme Pharma"] else []),
       (match (none : Option String) with
        | some e => some e
        | none => findEmail "Acme Pharma")⟩ :=
  c1_classification ⟨some (some "Doe"), some (some "Jane"), some (some "Acme Pharma")⟩
    "Acme Pharma" rfl ⟨[], [], none⟩

/-- **C2.** For a well-formed fetched record (identifier and title elements
present, affiliation elements textful), a row is emitted if and only if at
least one author is classified non-academic. -/
theorem c2_row_iff_nonacademic (art : Article) (t u : Option String)
    (h1 : art.pmid = some t) (h2 : art.articleTitle = some u)
    (h3 : ∀ a ∈ art.authors, a.affiliation ≠ some none) :
    (∃ row, extractArticle art = .ok (some row)) ↔ ∃ a ∈ art.authors, NonAcadP a := by
  rw [extractArticle_wf art t u h1 h2 h3]
  by_cases hf : art.authors.filter authorNonAcadB = []
  · simp only [hf, if_true, reduceCtorEq]
    constructor
    · rintro ⟨row, hrow⟩
      simp at hrow
    · rintro ⟨a, hmem, hna⟩
      have : authorNonAcadB a = true := (authorNonAcadB_iff a).mpr hna
      have := List.filter_eq_nil_iff.mp hf a hmem
      simp_all
  · simp only [hf, if_false]
    constructor
    · intro _
      obtain ⟨a, hmem⟩ := List.exists_mem_of_ne_nil _ hf
      have := List.mem_filter.mp hmem
      exact ⟨a, this.1, (authorNonAcadB_iff a).mp this.2⟩
    · intro _
      exact ⟨_, rfl⟩

/-- Witness for C2: one pharma-affiliated author yields a row; swapping the
affiliation for a university would match no keyword. -/
theorem c2_row_iff_nonacademic_witness :
    (∃ row, extractArticle ⟨some (some "111"), some (some "T"), none,
        [⟨some (some "Doe"), some (some "Jane"), some (some "Acme Pharma")⟩]⟩ =
          .ok (some row)) ↔
      ∃ a ∈ [(⟨some (some "Doe"), some (some "Jane"),
              some (some "Acme Pharma")⟩ : Author)], NonAcadP a :=
  c2_row_iff_nonacademic _ _ _ rfl rfl (by decide)

lemma pyOr_emailScan (authors : List Author) :
    pyOr (emailScan none authors) "N/A" =
      (((authors.map affOrEmpty).filterMap findEmail).head?).getD "N/A" := by
  rw [emailScan_none_eq]
  cases hL : (authors.map affOrEmpty).filterMap findEmail with
  | nil => rfl
  | cons e l' =>
      have he : e ∈ (authors.map affOrEmpty).filterMap findEmail := by
        rw [hL]; exact List.mem_cons_self _ _
      obtain ⟨s, _, hs⟩ := List.mem_filterMap.mp he
      simp [pyOr, findEmail_ne_empty hs]

/-- **C3.** For a well-formed emitted record, the corresponding-author email
is the first `findEmail` match over the authors' affiliation texts in
document order (a missing affiliation element is scanned as `""` inside
`affOrEmpty`), with the sentinel `"N/A"` when no affiliation matches; and an
already-recorded email is never overwritten by later authors of the record. -/
theorem c3_first_email_wins (art : Article) (t u : Option String) (row : Row)
    (h1 : art.pmid = some t) (h2 : art.articleTitle = some u)
    (h3 : ∀ a ∈ art.authors, a.affiliation ≠ some none)
    (h4 : extractArticle art = .ok (some row)) :
    row.correspondingEmail =
      (((art.authors.map affOrEmpty).filterMap findEmail).head?).getD "N/A" ∧
    ∀ (e : String) (rest : List Author), emailScan (some e) rest = some e := by
  refine ⟨?_, fun e rest => emailScan_some e rest⟩
  rw [extractArticle_wf art t u h1 h2 h3] at h4
  by_cases hf : art.authors.filter authorNonAcadB = []
  · rw [if_pos hf] at h4
    exact absurd h4 (by simp)
  · rw [if_neg hf] at h4
    simp only [Except.ok.injEq, Option.some.injEq] at h4
    rw [← h4]
    exact pyOr_emailScan art.authors

/-- Witness for C3: the first author's email is kept, the second author's
`bob@uni.edu` does not overwrite it. -/
theorem c3_first_email_wins_witness :
    (Row.mk (some "1") (some "T") (some "Unknown") "Jane Doe"
        "Acme Pharma ltd, jane@acme.com" "jane@acme.com").correspondingEmail =
      ((([⟨some (some "Doe"), some (some "Jane"),
            some (some "Acme Pharma ltd, jane@acme.com")⟩,
          ⟨some (some "Roe"), some (some "Bob"),
            some (some "Testland University, bob@uni.edu")⟩].map affOrEmpty).filterMap
              findEmail).head?).getD "N/A" ∧
    ∀ (e : String) (rest : List Author), emailScan (some e) rest = some e :=
  c3_first_email_wins
    ⟨some (some "1"), some (some "T"), none,
      [⟨some (some "Doe"), some (some "Jane"),
        some (some "Acme Pharma ltd, jane@acme.com")⟩,
       ⟨some (some "Roe"), some (some "Bob"),
        some (some "Testland University, bob@uni.edu")⟩]⟩
    (some "1") (some "T") _ rfl rfl (by decide) rfl

lemma displayName_eq_spec (a : Author) (hf : a.foreName ≠ some none)
    (hl : a.lastName ≠ some none) : displayName a = specDisplay a := by
  match h1 : a.foreName, h2 : a.lastName with
  | none, none => simp [displayName, specDisplay, h1, h2]
  | none, some l => simp [displayName, specDisplay, h1, h2]
  | some f, none => simp [displayName, specDisplay, h1, h2]
  | some none, some l => exact absurd h1 hf
  | some (some f), some none => exact absurd h2 hl
  | some (some f), some (some l) => simp [displayName, specDisplay, h1, h2, pyStr]

/-- **C4.** For a well-formed emitted record, the non-academic author field
is exactly the keyword-classified authors in original document order (a plain
`filter`, hence no deduplication), each rendered as `"{first} {last}"` when
both name parts are present and as `"Unknown"` otherwise, joined with
`"; "`; and the classification underlying the filter is exactly the keyword
containment of C1. -/
theorem c4_author_list_order (art : Article) (t u : Option String) (row : Row)
    (h1 : art.pmid = some t) (h2 : art.articleTitle = some u)
    (h3 : ∀ a ∈ art.authors, a.affiliation ≠ some none)
    (h4 : ∀ a ∈ art.authors, a.foreName ≠ some none ∧ a.lastName ≠ some none)
    (h5 : extractArticle art = .ok (some row)) :
    row.nonAcademicAuthors =
      String.intercalate "; " ((art.authors.filter authorNonAcadB).map specDisplay) ∧
    ∀ a ∈ art.authors, (authorNonAcadB a = true ↔ NonAcadP a) := by
  refine ⟨?_, fun a _ => authorNonAcadB_iff a⟩
  rw [extractArticle_wf art t u h1 h2 h3] at h5
  by_cases hf : art.authors.filter authorNonAcadB = []
  · rw [if_pos hf] at h5
    exact absurd h5 (by simp)
  · rw [if_neg hf] at h5
    simp only [Except.ok.injEq, Option.some.injEq] at h5
    rw [← h5]
    have hmap : (art.authors.filter authorNonAcadB).map displayName =
        (art.authors.filter authorNonAcadB).map specDisplay := by
      apply List.map_congr_left
      intro a ha
      have hmem := (List.mem_filter.mp ha).1
      exact displayName_eq_spec a (h4 a hmem).1 (h4 a hmem).2
    rw [hmap]

/-- Witness for C4: three authors, the two company-affiliated ones are kept
in document order, the university author is dropped. -/
theorem c4_author_list_order_witness :
    (Row.mk (some "2") (some "U") (some "2020") "X A; Z C"
        "BioTech Labs; Globex corp" "N/A").nonAcademicAuthors =
      String.intercalate "; "
        (([⟨some (some "A"), some (some "X"), some (some "BioTech Labs")⟩,
           ⟨some (some "B"), some (some "Y"), some (some "Midtown University")⟩,
           ⟨some (some "C"), some (some "Z"), some (some "Globex corp")⟩].filter
             authorNonAcadB).map specDisplay) ∧
    ∀ a ∈ [(⟨some (some "A"), some (some "X"), some (some "BioTech Labs")⟩ : Author),
           ⟨some (some "B"), some (some "Y"), some (some "Midtown University")⟩,
           ⟨some (some "C"), some (some "Z"), some (some "Globex corp")⟩],
      (authorNonAcadB a = true ↔ NonAcadP a) :=
  c4_author_list_order
    ⟨some (some "2"), some (some "U"), some (some "2020"),
      [⟨some (some "A"), some (some "X"), some (some "BioTech Labs")⟩,
       ⟨some (some "B"), some (some "Y"), some (some "Midtown University")⟩,
       ⟨some (some "C"), some (some "Z"), some (some "Globex corp")⟩]⟩
    (some "2") (some "U") _ rfl rfl (by decide) (by decide) rfl

/-- **C5.** For a well-formed emitted record, the company-affiliation field
is a `"; "`-join of a duplicate-free list whose members are exactly the
original-case affiliation strings of the non-academic authors. -/
theorem c5_affiliations_dedup (art : Article) (t u : Option String) (row : Row)
    (h1 : art.pmid = some t) (h2 : art.articleTitle = some u)
    (h3 : ∀ a ∈ art.authors, a.affiliation ≠ some none)
    (h5 : extractArticle art = .ok (some row)) :
    ∃ l : List String,
      row.companyAffiliations = String.intercalate "; " l ∧
      l.Nodup ∧
      ∀ x, x ∈ l ↔ ∃ a ∈ art.authors, authorNonAcadB a = true ∧ affOrEmpty a = x := by
  rw [extractArticle_wf art t u h1 h2 h3] at h5
  by_cases hf : art.authors.filter authorNonAcadB = []
  · rw [if_pos hf] at h5
    exact absurd h5 (by simp)
  · rw [if_neg hf] at h5
    simp only [Except.ok.injEq, Option.some.injEq] at h5
    refine ⟨((art.authors.filter authorNonAcadB).map affOrEmpty).dedup, ?_, List.nodup_dedup _, ?_⟩
    · rw [← h5]
    · intro x
      rw [List.mem_dedup, List.mem_map]
      constructor
      · rintro ⟨a, ha, rfl⟩
        have := List.mem_filter.mp ha
        exact ⟨a, this.1, this.2, rfl⟩
      · rintro ⟨a, ha, hb, rfl⟩
        exact ⟨a, List.mem_filter.mpr ⟨ha, hb⟩, rfl⟩

/-- Witness for C5: two authors sharing one affiliation string produce a
single copy of it, next to a second distinct affiliation. -/
theorem c5_affiliations_dedup_witness :
    ∃ l : List String,
      (Row.mk (some "2") (some "U") (some "2020") "X A; Y B; Z C"
          "BioTech Labs; Globex corp" "N/A").companyAffiliations =
        String.intercalate "; " l ∧
      l.Nodup ∧
      ∀ x, x ∈ l ↔ ∃ a ∈
        [(⟨some (some "A"), some (some "X"), some (some "BioTech Labs")⟩ : Author),
         ⟨some (some "B"), some (some "Y"), some (some "BioTech Labs")⟩,
         ⟨some (some "C"), some (some "Z"), some (some "Globex corp")⟩],
        authorNonAcadB a = true ∧ affOrEmpty a = x :=
  c5_affiliations_dedup
    ⟨some (some "2"), some (some "U"), some (some "2020"),
      [⟨some (some "A"), some (some "X"), some (some "BioTech Labs")⟩,
       ⟨some (some "B"), some (some "Y"), some (some "BioTech Labs")⟩,
       ⟨some (some "C"), some (some "Z"), some (some "Globex corp")⟩]⟩
    (some "2") (some "U") _ rfl rfl (by decide) rfl

/-- **C6, counterexample.** The claim says extraction never raises on an
author whose affiliation is missing *or empty*.  An empty affiliation element
(`<Affiliation></Affiliation>`) parses with `text = None`, and line 60
(`affiliation.text.lower()`) then raises `AttributeError`, aborting
extraction of the whole batch — so the claim fails on the "empty" half. -/
theorem c6_empty_affiliation_counterexample :
    extractArticle ⟨some (some "9"), some (some "T"), none,
      [⟨some (some "Doe"), some (some "Jane"), some none⟩]⟩ =
      .error .attributeError := rfl

/-- **C6, amended.** Absence of the affiliation *element* is treated as an
empty string for classification and email matching and never raises: the loop
iteration returns the accumulators unchanged, so the author is classified
academic and no email is recorded (only an affiliation element that is
present but textless raises). -/
theorem c6_missing_affiliation_amended (a : Author) (st : ExtractState)
    (h : a.affiliation = none) : authorStep a st = .ok st := by
  obtain ⟨n, c, em⟩ := st
  cases em <;> simp [authorStep, h, findEmail, searchEmail]

/-- Witness for the amended C6: an author with no affiliation element leaves
the empty accumulators (no authors, no affiliations, no email) unchanged. -/
theorem c6_missing_affiliation_amended_witness :
    authorStep ⟨some (some "Doe"), some (some "Jane"), none⟩ ⟨[], [], none⟩ =
      .ok ⟨[], [], none⟩ :=
  c6_missing_affiliation_amended ⟨some (some "Doe"), some (some "Jane"), none⟩
    ⟨[], [], none⟩ rfl

/-- **C7.** A fetched record whose identifier or title element is absent
makes extraction raise (`article.find(...).text` on `None`, lines 43-44), and
any batch containing such a record aborts with an error instead of emitting
rows with silently coerced empty fields. -/
theorem c7_missing_required_fields (art : Article)
    (h : art.pmid = none ∨ art.articleTitle = none) :
    extractArticle art = .error .attributeError ∧
    ∀ batch, art ∈ batch → ∃ e, fetch_pubmed_details batch = .error e := by
  have hart : extractArticle art = .error .attributeError := by
    rcases h with h | h
    · simp [extractArticle, h, elemText]
    · cases hp : art.pmid with
      | none => simp [extractArticle, hp, elemText]
      | some t => simp [extractArticle, hp, h, elemText]
  refine ⟨hart, ?_⟩
  intro batch
  induction batch with
  | nil => intro hmem; cases hmem
  | cons b rest ih =>
      intro hmem
      rcases List.mem_cons.mp hmem with rfl | hmem'
      · exact ⟨.attributeError, by simp [fetch_pubmed_details, hart]⟩
      · cases hb : extractArticle b with
        | error e => exact ⟨e, by simp [fetch_pubmed_details, hb]⟩
        | ok r =>
            obtain ⟨e, he⟩ := ih hmem'
            exact ⟨e, by simp [fetch_pubmed_details, hb, he]⟩

/-- Witness for C7: a record with no `PMID` element. -/
theorem c7_missing_required_fields_witness :
    extractArticle ⟨none, some (some "T"), none, []⟩ = .error .attributeError ∧
    ∀ batch, (⟨none, some (some "T"), none, []⟩ : Article) ∈ batch →
      ∃ e, fetch_pubmed_details batch = .error e :=
  c7_missing_required_fields ⟨none, some (some "T"), none, []⟩ (Or.inl rfl)

/-- **C8.** When the identifier search returns zero identifiers, the run
terminates successfully having performed only the search: no detail fetch is
issued and no output file is written (lines 104-106 return before
`fetch_pubmed_details` and `save_to_csv`). -/
theorem c8_zero_ids_halts (query outFile : String) (articles : List Article) :
    mainModel query outFile [] articles = .ok [Action.searchIds query] := rfl

/-- **C10.** A syntactically valid JSON search response that lacks the
`esearchresult` key, or whose `esearchresult` object lacks the `idlist` key,
makes `fetch_pubmed_ids` return the empty list — the normal zero-results
path — rather than raise. -/
theorem c10_missing_keys_empty (fields gs : List (String × Json))
    (h : fields.lookup "esearchresult" = none ∨
         (fields.lookup "esearchresult" = some (.jobj gs) ∧
          gs.lookup "idlist" = none)) :
    fetch_pubmed_ids (.jobj fields) = .ok (.jarr []) := by
  rcases h with h | ⟨h1, h2⟩
  · simp [fetch_pubmed_ids, pyDictGet, h]
  · simp [fetch_pubmed_ids, pyDictGet, h1, h2]

/-- Witness for C10: the empty object, and an `esearchresult` object carrying
only a `count` field. -/
theorem c10_missing_keys_empty_witness :
    fetch_pubmed_ids (.jobj []) = .ok (.jarr []) ∧
    fetch_pubmed_ids (.jobj [("esearchresult", .jobj [("count", .jnum 0)])]) =
      .ok (.jarr []) :=
  ⟨c10_missing_keys_empty [] [] (Or.inl rfl),
   c10_missing_keys_empty [("esearchresult", .jobj [("count", .jnum 0)])]
     [("count", .jnum 0)] (Or.inr ⟨rfl, rfl⟩)⟩
/-! ## CSV round-trip lemmas -/

lemma stopChar_of_csvSpecial {c : Char} (h : csvSpecial c = false) :
    stopChar c = false := by
  simp only [csvSpecial, Bool.or_eq_false_iff, decide_eq_false_iff_not] at h
  simp only [stopChar, Bool.or_eq_false_iff, decide_eq_false_iff_not]
  exact ⟨⟨h.1.1.1, h.1.2⟩, h.2⟩

lemma quote_ne_of_csvSpecial {c : Char} (h : csvSpecial c = false) : c ≠ '"' := by
  simp only [csvSpecial, Bool.or_eq_false_iff, decide_eq_false_iff_not] at h
  exact h.1.1.2

lemma parseQuoted_nil (acc : List Char) : parseQuoted acc [] = (acc.reverse, []) := by
  rw [parseQuoted.eq_def]

lemma parseQuoted_quote_quote (acc rest : List Char) :
    parseQuoted acc ('"' :: '"' :: rest) = parseQuoted ('"' :: acc) rest := by
  rw [parseQuoted.eq_def]
  simp

lemma parseQuoted_quote_cons (acc : List Char) (c : Char) (rest : List Char)
    (h : c ≠ '"') : parseQuoted acc ('"' :: c :: rest) = (acc.reverse, c :: rest) := by
  rw [parseQuoted.eq_def]
  simp [h]

lemma parseQuoted_quote_nil (acc : List Char) :
    parseQuoted acc ['"'] = (acc.reverse, []) := by
  rw [parseQuoted.eq_def]
  simp

lemma parseQuoted_cons (acc : List Char) (c : Char) (rest : List Char)
    (h : c ≠ '"') : parseQuoted acc (c :: rest) = parseQuoted (c :: acc) rest := by
  rw [parseQuoted.eq_def]
  simp [h]

lemma parseBare_nil (acc : List Char) : parseBare acc [] = (acc.reverse, []) := by
  rw [parseBare.eq_def]

lemma parseBare_cons_stop (acc : List Char) (c : Char) (rest : List Char)
    (h : stopChar c = true) : parseBare acc (c :: rest) = (acc.reverse, c :: rest) := by
  rw [parseBare.eq_def]
  simp [h]

lemma parseBare_cons_go (acc : List Char) (c : Char) (rest : List Char)
    (h : stopChar c = false) : parseBare acc (c :: rest) = parseBare (c :: acc) rest := by
  rw [parseBare.eq_def]
  simp [h]

lemma parseBare_app (f : List Char) (hf : ∀ c ∈ f, stopChar c = false) :
    ∀ (acc rest : List Char),
      (rest = [] ∨ ∃ c rest2, rest = c :: rest2 ∧ stopChar c = true) →
      parseBare acc (f ++ rest) = (acc.reverse ++ f, rest) := by
  induction f with
  | nil =>
      intro acc rest hr
      rcases hr with rfl | ⟨c, rest2, rfl, hc⟩
      · simp [parseBare_nil]
      · simp [parseBare_cons_stop acc c rest2 hc]
  | cons c f' ih =>
      intro acc rest hr
      have hc : stopChar c = false := hf c (List.mem_cons_self c f')
      have hf' : ∀ x ∈ f', stopChar x = false :=
        fun x hx => hf x (List.mem_cons_of_mem _ hx)
      rw [List.cons_append, parseBare_cons_go acc c (f' ++ rest) hc,
        ih hf' (c :: acc) rest hr]
      simp

lemma parseQuoted_escBody (f : List Char) :
    ∀ (acc rest : List Char), rest.head? ≠ some '"' →
      parseQuoted acc (escBody f ++ '"' :: rest) = (acc.reverse ++ f, rest) := by
  induction f with
  | nil =>
      intro acc rest hr
      cases rest with
      | nil => simp [escBody, parseQuoted_quote_nil]
      | cons c2 rest2 =>
          have hc2 : c2 ≠ '"' := fun h => hr (by simp [h])
          simp [escBody, parseQuoted_quote_cons acc c2 rest2 hc2]
  | cons c f' ih =>
      intro acc rest hr
      by_cases hc : c = '"'
      · subst hc
        have h1 : escBody ('"' :: f') ++ '"' :: rest =
            '"' :: '"' :: (escBody f' ++ '"' :: rest) := by
          simp [escBody]
        rw [h1, parseQuoted_quote_quote, ih ('"' :: acc) rest hr]
        simp
      · have h1 : escBody (c :: f') ++ '"' :: rest =
            c :: (escBody f' ++ '"' :: rest) := by
          simp [escBody, hc]
        rw [h1, parseQuoted_cons acc c _ hc, ih (c :: acc) rest hr]
        simp

lemma parseField_nil : parseField [] = ([], []) := rfl

lemma parseField_quote (rest : List Char) :
    parseField ('"' :: rest) = parseQuoted [] rest := by
  rw [parseField.eq_def]
  simp

lemma parseField_other (c : Char) (rest : List Char) (h : c ≠ '"') :
    parseField (c :: rest) = parseBare [] (c :: rest) := by
  rw [parseField.eq_def]
  simp [h]

lemma parseField_esc (f rest : List Char)
    (hr : rest.head? = some ',' ∨ rest.head? = some '\r') :
    parseField (escField f ++ rest) = (f, rest) := by
  have hrq : rest.head? ≠ some '"' := by
    rcases hr with hr | hr <;> simp [hr]
  have hrshape : rest = [] ∨ ∃ c rest2, rest = c :: rest2 ∧ stopChar c = true := by
    rcases hr with hr | hr <;> cases rest with
    | nil => simp at hr
    | cons c rest2 =>
        simp only [List.head?_cons, Option.some.injEq] at hr
        exact Or.inr ⟨c, rest2, rfl, by simp [stopChar, hr]⟩
  by_cases hq : f.any csvSpecial = true
  · have h1 : escField f ++ rest = '"' :: (escBody f ++ '"' :: rest) := by
      simp [escField, hq]
    rw [h1, parseField_quote, parseQuoted_escBody f [] rest hrq]
    simp
  · have hnosp : ∀ c ∈ f, csvSpecial c = false := by
      intro c hc
      have := List.any_eq_false.mp (Bool.not_eq_true _ ▸ hq) c hc
      exact Bool.eq_false_iff.mpr this
    have hnostop : ∀ c ∈ f, stopChar c = false :=
      fun c hc => stopChar_of_csvSpecial (hnosp c hc)
    have h0 : escField f = f := by simp [escField, hq]
    rw [h0]
    cases f with
    | nil =>
        rcases hrshape with rfl | ⟨c, rest2, rfl, hc⟩
        · rcases hr with hr | hr <;> simp at hr
        · have hcq : c ≠ '"' := by
            rcases hr with hr | hr <;>
              simp only [List.head?_cons, Option.some.injEq] at hr <;> simp [hr]
          rw [List.nil_append, parseField_other c rest2 hcq,
            parseBare_cons_stop [] c rest2 hc]
          simp
    | cons c f' =>
        have hcq : c ≠ '"' :=
          quote_ne_of_csvSpecial (hnosp c (List.mem_cons_self c f'))
        rw [List.cons_append, parseField_other c (f' ++ rest) hcq,
          show c :: (f' ++ rest) = (c :: f') ++ rest from rfl,
          parseBare_app (c :: f') hnostop [] rest hrshape]
        simp

lemma parseRecAux_step_comma (fuel : Nat) (acc : List (List Char)) (f : List Char)
    (rest2 input : List Char) (h : parseField input = (f, ',' :: rest2)) :
    parseRecAux (fuel + 1) acc input = parseRecAux fuel (f :: acc) rest2 := by
  rw [parseRecAux, h]
  rfl

lemma parseRecAux_step_crlf (fuel : Nat) (acc : List (List Char)) (f : List Char)
    (rest2 input : List Char) (h : parseField input = (f, '\r' :: '\n' :: rest2)) :
    parseRecAux (fuel + 1) acc input = ((f :: acc).reverse, rest2) := by
  rw [parseRecAux, h]
  rfl

lemma parseRecAux_round (fields : List (List Char)) :
    ∀ (acc : List (List Char)) (fuel : Nat) (rest : List Char),
      fields ≠ [] → fields.length ≤ fuel →
      parseRecAux fuel acc (joinComma (fields.map escField) ++ '\r' :: '\n' :: rest) =
        (acc.reverse ++ fields, rest) := by
  induction fields with
  | nil => intro _ _ _ hne _; exact absurd rfl hne
  | cons f fs ih =>
      intro acc fuel rest _ hfuel
      cases fuel with
      | zero => simp at hfuel
      | succ m =>
          cases fs with
          | nil =>
              have hj : joinComma ([f].map escField) = escField f := rfl
              rw [hj, parseRecAux_step_crlf m acc f rest _
                (parseField_esc f ('\r' :: '\n' :: rest) (Or.inr rfl))]
              simp
          | cons f2 fs' =>
              have hj : joinComma ((f :: f2 :: fs').map escField) ++ '\r' :: '\n' :: rest =
                  escField f ++
                    (',' :: (joinComma ((f2 :: fs').map escField) ++ '\r' :: '\n' :: rest)) := by
                simp [joinComma, List.map_cons]
              rw [hj, parseRecAux_step_comma m acc f _ _
                (parseField_esc f
                  (',' :: (joinComma ((f2 :: fs').map escField) ++ '\r' :: '\n' :: rest))
                  (Or.inl rfl))]
              have hlen : (f2 :: fs').length ≤ m := by
                simpa using Nat.le_of_succ_le_succ hfuel
              rw [ih (f :: acc) m rest (by simp) hlen]
              simp

lemma joinComma_length_ge : ∀ fs : List (List Char), fs.length ≤ (joinComma fs).length + 1
  | [] => by simp [joinComma]
  | [f] => by simp [joinComma]
  | f :: f2 :: fs => by
      have ih := joinComma_length_ge (f2 :: fs)
      have hj : joinComma (f :: f2 :: fs) = f ++ ',' :: joinComma (f2 :: fs) := rfl
      rw [hj]
      simp only [List.length_cons, List.length_append] at ih ⊢
      omega

lemma writeRec_length_ge (fields : List (List Char)) :
    fields.length + 1 ≤ (writeRec fields).length ∧ 2 ≤ (writeRec fields).length := by
  have h := joinComma_length_ge (fields.map escField)
  simp only [List.length_map] at h
  simp only [writeRec, List.length_append, List.length_cons, List.length_nil]
  constructor <;> omega

lemma parseRecord_round (fields : List (List Char)) (rest : List Char)
    (hne : fields ≠ []) :
    parseRecord (writeRec fields ++ rest) = (fields, rest) := by
  unfold parseRecord writeRec
  rw [show joinComma (fields.map escField) ++ ['\r', '\n'] ++ rest =
      joinComma (fields.map escField) ++ '\r' :: '\n' :: rest by simp]
  have h := joinComma_length_ge (fields.map escField)
  simp only [List.length_map] at h
  have hfuel : fields.length ≤
      (joinComma (fields.map escField) ++ '\r' :: '\n' :: rest).length + 1 := by
    simp only [List.length_append, List.length_cons]
    omega
  rw [parseRecAux_round fields [] _ rest hne hfuel]
  simp

lemma csvFile_length_ge (rows : List (List (List Char))) :
    rows.length ≤ (csvFile rows).length := by
  induction rows with
  | nil => simp [csvFile]
  | cons r rs ih =>
      have h2 := (writeRec_length_ge r).2
      simp only [csvFile, List.length_append, List.length_cons]
      omega

lemma parseRows_csvFile (rows : List (List (List Char)))
    (hrows : ∀ r ∈ rows, r ≠ []) :
    ∀ fuel, rows.length ≤ fuel → parseRows fuel (csvFile rows) = rows := by
  induction rows with
  | nil =>
      intro fuel _
      cases fuel <;> simp [csvFile, parseRows]
  | cons r rs ih =>
      intro fuel hfuel
      cases fuel with
      | zero => simp at hfuel
      | succ m =>
          have hne : writeRec r ++ csvFile rs ≠ [] := by
            have h2 := (writeRec_length_ge r).2
            intro h
            have := congrArg List.length h
            simp only [List.length_append, List.length_nil] at this
            omega
          show parseRows (m + 1) (csvFile (r :: rs)) = r :: rs
          rw [show csvFile (r :: rs) = writeRec r ++ csvFile rs from rfl]
          rw [parseRows, if_neg hne,
            parseRecord_round r (csvFile rs) (hrows r (List.mem_cons_self r rs))]
          show r :: parseRows m (csvFile rs) = r :: rs
          rw [ih (fun x hx => hrows x (List.mem_cons_of_mem _ hx)) m
            (Nat.le_of_succ_le_succ hfuel)]
/-- **C9.** Writing any list of papers with `save_to_csv` and reading the
file back yields exactly one header row carrying the six fixed column names
in order, followed by one data row per paper, in input order, whose cells are
exactly the papers' field values (sentinels `"N/A"` and `"Unknown"`
included, Python `None` cells as the empty string). -/
theorem c9_csv_round_trip (papers : List Row) :
    csvParse (save_to_csv papers) =
      (fieldnames.map String.toList) ::
        papers.map (fun p => (rowValues p).map String.toList) := by
  unfold csvParse save_to_csv
  refine parseRows_csvFile _ ?_ _ (csvFile_length_ge _)
  intro r hr
  rcases List.mem_cons.mp hr with rfl | hr'
  · simp [fieldnames]
  · obtain ⟨p, _, rfl⟩ := List.mem_map.mp hr'
    simp [rowValues]

end PubmedScraper
